import Mathlib

/-!
Verification development for the Chicago realty companion engine
(src/engine.py), shallowly embedded over the rationals.

Modelling conventions:
* Python floats are modelled as `ℚ`; `np.clip`, `np.percentile` (linear
  interpolation), `pandas` medians and `np.round` are given exact rational
  definitions following the numpy/pandas documented semantics.
* The numeric library transcendentals the engine calls (`np.exp`, `np.log`,
  `np.linalg.cholesky`) are external collaborators: they are passed in as an
  explicit `NumLib` record of deterministic functions, and theorems that need
  a property of them (for instance that `exp` is positive) take it as a
  hypothesis.
* The random generator (`np.random.Generator`) is an explicit `Rng` record:
  a deterministic table of the draws a seeded generator would produce.  The
  `rng=None` default of `simulate_once` (a fresh unseeded generator) is
  modelled by an extra `entropy : Rng` argument that is used only when no
  generator is passed.
* A Python exception is modelled by `Option`: `none` is a raised error.
-/

namespace RealtyEngine

/-- Scalar np.clip: clamp `x` into `[lo, hi]`. -/
def clipQ (x lo hi : ℚ) : ℚ := min (max x lo) hi

/-- np.round(x, 2): rounding to two decimal places. -/
def round2 (x : ℚ) : ℚ := ((round (x * 100) : ℤ) : ℚ) / 100

/-- np.round(x, 1): rounding to one decimal place. -/
def round1 (x : ℚ) : ℚ := ((round (x * 10) : ℤ) : ℚ) / 10

/-- Boolean comparison `a ≤ b` (a numpy comparison producing a boolean). -/
def leB (a b : ℚ) : Bool := if a ≤ b then true else false

/-- Boolean comparison `a < b`. -/
def ltB (a b : ℚ) : Bool := if a < b then true else false

theorem leB_iff (a b : ℚ) : leB a b = true ↔ a ≤ b := by
  by_cases h : a ≤ b <;> simp [leB, h]

theorem ltB_iff (a b : ℚ) : ltB a b = true ↔ a < b := by
  by_cases h : a < b <;> simp [ltB, h]

/-- One ring's record of the regional profile table
(`data/regional_headwinds.json` entries). The source's field
`list_sale_ratio` is here called `list_sale`. -/
structure Region where
  inventory_months : ℚ
  dom_days : ℚ
  list_sale : ℚ
  tax_rate : ℚ
  permit_delay_days : ℚ
deriving DecidableEq

/-- The regional profile table: `regional_map['rings']` as an
insertion-ordered association list, as a Python dict iterates. -/
structure RegionalMap where
  rings : List (String × Region)
deriving DecidableEq

/-- Resolution of a region name in `headwind_index`:
`regional_map['rings'].get(region, next(iter(regional_map['rings'].values())))`.
Python evaluates the fallback `next(iter(...))` eagerly, so an empty table
raises (modelled as `none`) even before the lookup; otherwise a missing key
falls back to the first entry in iteration order. -/
def hwLookup (region : String) (m : RegionalMap) : Option Region :=
  match m.rings.head? with
  | none => none
  | some hd => some ((m.rings.find? (fun p => p.1 == region)).getD hd).2

/-- Score of one resolved `Region` record, the body of `headwind_index`
(src/engine.py lines 16-19). -/
def hwScore (r : Region) : ℚ :=
  let inv_n := min (r.inventory_months / 6) 1
  let dom_n := min (r.dom_days / 60) 1
  let tax_n := min (r.tax_rate / (25/1000)) 1
  let permit_n := min (r.permit_delay_days / 60) 1
  let hi := 100 * ((30/100) * inv_n + (25/100) * dom_n + (20/100) * (1 - r.list_sale)
    + (15/100) * tax_n + (10/100) * permit_n)
  clipQ hi 0 100

/-- `headwind_index(region, regional_map)` (src/engine.py lines 14-19);
`none` models the `StopIteration` raised on an empty table. -/
def headwind_index (region : String) (m : RegionalMap) : Option ℚ :=
  (hwLookup region m).map hwScore

/-- One result row of `simulate_once` (src/engine.py lines 58-61), plus the
`lens` column `run_all` adds. Fields are the source's columns:
`HI`, `P10_ROI%`, `P50_ROI%`, `P90_ROI%`, `VaR5_ROI%`, `CVaR5_ROI%`,
`P(loss)%`, `Risk-Adj ROI P50%`. -/
structure Row where
  address : String
  region_ring : String
  hi : ℚ
  p10 : ℚ
  p50 : ℚ
  p90 : ℚ
  var5 : ℚ
  cvar5 : ℚ
  ploss : ℚ
  risk_adj : ℚ
  lens : String
deriving DecidableEq

/-- Sort a list of rationals ascending (what numpy/pandas do before taking
percentiles or medians). -/
def sortQ (l : List ℚ) : List ℚ := List.insertionSort (· ≤ ·) l

/-- The median of a pandas numeric series: middle element of the sorted
values for odd length, mean of the two middle elements for even length. -/
def medianQ (l : List ℚ) : ℚ :=
  let s := sortQ l
  let n := s.length
  if n % 2 = 1 then s.getD (n / 2) 0
  else (s.getD (n / 2 - 1) 0 + s.getD (n / 2) 0) / 2

/-- The decision threshold triple (`bars`). -/
structure Bars where
  risk_adj : ℚ
  ploss : ℚ
  cvar : ℚ
deriving DecidableEq

/-- The fixed default bars `{'risk_adj':8.5,'ploss':15.0,'cvar':-10.0}`. -/
def defaultBars : Bars := ⟨17/2, 15, -10⟩

/-- The summary `decide` returns: the three medians and the status. -/
structure Summary where
  riskAdj : ℚ
  ploss : ℚ
  cvar5 : ℚ
  status : String
deriving DecidableEq

/-- `decide(df, bars)` (src/engine.py lines 64-67); the `bars=None` default
substitutes the fixed defaults. -/
def decide (df : List Row) (bars? : Option Bars) : Summary :=
  let b := bars?.getD defaultBars
  let r := medianQ (df.map (·.risk_adj))
  let p := medianQ (df.map (·.ploss))
  let c := medianQ (df.map (·.cvar5))
  ⟨r, p, c, if r ≥ b.risk_adj ∧ p ≤ b.ploss ∧ c > b.cvar then "GO" else "CAUTION"⟩

/-- Clamp to `[0,1]`, the spec's normalisation of the friction sub-scores. -/
def clamp01 (x : ℚ) : ℚ := min (max x 0) 1

/-- C2: for every non-empty batch and every bar triple, `decide` returns GO
iff the batch median of risk-adjusted ROI is `≥ bars.risk_adj`, the median
loss probability is `≤ bars.ploss` and the median CVaR5 is `> bars.cvar`
(inclusive on the first two, strict on the third), and CAUTION otherwise. -/
theorem decide_go_iff (df : List Row) (b : Bars) (hne : df ≠ []) :
    ((decide df (some b)).status = "GO" ↔
      medianQ (df.map (·.risk_adj)) ≥ b.risk_adj ∧
        medianQ (df.map (·.ploss)) ≤ b.ploss ∧
        medianQ (df.map (·.cvar5)) > b.cvar) ∧
    ((decide df (some b)).status = "CAUTION" ↔
      ¬(medianQ (df.map (·.risk_adj)) ≥ b.risk_adj ∧
        medianQ (df.map (·.ploss)) ≤ b.ploss ∧
        medianQ (df.map (·.cvar5)) > b.cvar)) := by
  unfold decide
  by_cases h : medianQ (df.map (·.risk_adj)) ≥ b.risk_adj ∧
      medianQ (df.map (·.ploss)) ≤ b.ploss ∧
      medianQ (df.map (·.cvar5)) > b.cvar <;>
    simp [h]

/-- Witness for C2 at the spec's boundary scenario: a one-row batch whose
bars equal the measured medians on risk_adj and ploss (and lie strictly
below on cvar) classifies as GO. -/
theorem decide_go_iff_witness :
    (decide [⟨"a", "Urban Core", 0, 1, 2, 3, -4, -3, 5, 10, "Engineer"⟩]
      (some ⟨10, 5, -4⟩)).status = "GO" :=
  ((decide_go_iff [⟨"a", "Urban Core", 0, 1, 2, 3, -4, -3, 5, 10, "Engineer"⟩]
      ⟨10, 5, -4⟩ (by simp)).1).mpr (by refine ⟨?_, ?_, ?_⟩ <;> with_unfolding_all decide)

/-- C8: for every region identifier and non-empty profile table the friction
index is in `[0,100]` and equals the clamped, `100`-scaled weighted sum of
the sub-scores with weights 0.30/0.25/0.20/0.15/0.10; under the table's
documented invariants (non-negative inputs) the sub-scores are exactly the
`[0,1]`-clamped normalisations. -/
theorem headwind_index_spec (region : String) (m : RegionalMap) (h : ℚ)
    (hh : headwind_index region m = some h) :
    0 ≤ h ∧ h ≤ 100 ∧
    ∃ r, hwLookup region m = some r ∧
      h = clipQ (100 * ((30/100) * min (r.inventory_months / 6) 1
            + (25/100) * min (r.dom_days / 60) 1 + (20/100) * (1 - r.list_sale)
            + (15/100) * min (r.tax_rate / (25/1000)) 1
            + (10/100) * min (r.permit_delay_days / 60) 1)) 0 100 ∧
      (0 ≤ r.inventory_months → 0 ≤ r.dom_days → 0 ≤ r.tax_rate →
        0 ≤ r.permit_delay_days →
        h = clipQ (100 * ((30/100) * clamp01 (r.inventory_months / 6)
              + (25/100) * clamp01 (r.dom_days / 60) + (20/100) * (1 - r.list_sale)
              + (15/100) * clamp01 (r.tax_rate / (25/1000))
              + (10/100) * clamp01 (r.permit_delay_days / 60))) 0 100) := by
  unfold headwind_index at hh
  rcases Option.map_eq_some'.mp hh with ⟨r, hr, hs⟩
  subst hs
  refine ⟨?_, ?_, r, hr, rfl, ?_⟩
  · unfold hwScore clipQ
    exact le_min (le_max_right _ _) (by norm_num)
  · unfold hwScore clipQ
    exact min_le_right _ _
  · intro h1 h2 h3 h4
    unfold hwScore clamp01
    have e1 : max (r.inventory_months / 6) 0 = r.inventory_months / 6 :=
      max_eq_left (by positivity)
    have e2 : max (r.dom_days / 60) 0 = r.dom_days / 60 :=
      max_eq_left (by positivity)
    have e3 : max (r.tax_rate / (25/1000)) 0 = r.tax_rate / (25/1000) :=
      max_eq_left (by positivity)
    have e4 : max (r.permit_delay_days / 60) 0 = r.permit_delay_days / 60 :=
      max_eq_left (by positivity)
    rw [e1, e2, e3, e4]

/-- Witness for C8 at a concrete two-ring table. -/
theorem headwind_index_spec_witness :
    0 ≤ (55/2 : ℚ) ∧ (55/2 : ℚ) ≤ 100 ∧
    ∃ r, hwLookup "Urban Core"
        ⟨[("Urban Core", ⟨3, 30, 1, 0, 0⟩), ("Inner Collar", ⟨6, 60, 1, 0, 0⟩)]⟩ = some r ∧
      (55/2 : ℚ) = clipQ (100 * ((30/100) * min (r.inventory_months / 6) 1
            + (25/100) * min (r.dom_days / 60) 1 + (20/100) * (1 - r.list_sale)
            + (15/100) * min (r.tax_rate / (25/1000)) 1
            + (10/100) * min (r.permit_delay_days / 60) 1)) 0 100 ∧
      (0 ≤ r.inventory_months → 0 ≤ r.dom_days → 0 ≤ r.tax_rate →
        0 ≤ r.permit_delay_days →
        (55/2 : ℚ) = clipQ (100 * ((30/100) * clamp01 (r.inventory_months / 6)
              + (25/100) * clamp01 (r.dom_days / 60) + (20/100) * (1 - r.list_sale)
              + (15/100) * clamp01 (r.tax_rate / (25/1000))
              + (10/100) * clamp01 (r.permit_delay_days / 60))) 0 100) :=
  headwind_index_spec "Urban Core"
    ⟨[("Urban Core", ⟨3, 30, 1, 0, 0⟩), ("Inner Collar", ⟨6, 60, 1, 0, 0⟩)]⟩ (55/2)
    (by with_unfolding_all rfl)

/-- C9: a region absent from a non-empty profile table does not raise: the
lookup deterministically substitutes the first entry in iteration order and
the friction index is computed from that entry. -/
theorem headwind_index_fallback (region : String) (m : RegionalMap)
    (r0 : String × Region) (rest : List (String × Region))
    (hm : m.rings = r0 :: rest) (habs : ∀ p ∈ m.rings, p.1 ≠ region) :
    headwind_index region m = some (hwScore r0.2) := by
  unfold headwind_index hwLookup
  rw [hm]
  have hfind : (r0 :: rest).find? (fun p => p.1 == region) = none := by
    rw [List.find?_eq_none]
    intro p hp
    simpa using habs p (hm ▸ hp)
  simp [hfind]

/-- Witness for C9: an absent region over a two-entry table resolves to the
first entry. -/
theorem headwind_index_fallback_witness :
    headwind_index "Outer Collar"
      ⟨[("Urban Core", ⟨3, 30, 1, 0, 0⟩), ("Inner Collar", ⟨6, 60, 1, 0, 0⟩)]⟩ =
      some (hwScore ⟨3, 30, 1, 0, 0⟩) :=
  headwind_index_fallback "Outer Collar"
    ⟨[("Urban Core", ⟨3, 30, 1, 0, 0⟩), ("Inner Collar", ⟨6, 60, 1, 0, 0⟩)]⟩
    ("Urban Core", ⟨3, 30, 1, 0, 0⟩) [("Inner Collar", ⟨6, 60, 1, 0, 0⟩)]
    rfl (by decide)

/-- The three-condition pass test of `go_rate` inside `autotune_bars`
(src/engine.py line 72). -/
def goPass (b : Bars) (r : Row) : Bool :=
  if r.risk_adj ≥ b.risk_adj ∧ r.ploss ≤ b.ploss ∧ r.cvar5 > b.cvar then true else false

/-- The GO-rate of a batch under candidate bars: the fraction of rows
passing the three-condition test.  The mean of an empty boolean series is
numpy's NaN, modelled as `none` (a NaN score never beats the running best,
matching float comparison semantics). -/
def go_rate (df : List Row) (b : Bars) : Option ℚ :=
  if df.isEmpty then none
  else some (((df.filter (goPass b)).length : ℚ) / (df.length : ℚ))

/-- Candidate risk_adj grid `np.arange(6.0, 12.5, 0.5)` = 6.0, 6.5, ..., 12.0. -/
def cand_r : List ℚ := (List.range 13).map (fun k => 6 + (k : ℚ) / 2)

/-- Candidate ploss grid `np.arange(10.0, 25.5, 0.5)` = 10.0, 10.5, ..., 25.0. -/
def cand_p : List ℚ := (List.range 31).map (fun k => 10 + (k : ℚ) / 2)

/-- Candidate cvar grid `np.arange(-20.0, -5.0, 1.0)` = -20.0, -19.0, ..., -6.0. -/
def cand_c : List ℚ := (List.range 15).map (fun k => -20 + (k : ℚ))

/-- The full Cartesian product of the three grids in the source's loop
order: risk_adj outer, ploss middle, cvar inner. -/
def candList : List Bars :=
  cand_r.bind (fun rr => cand_p.bind (fun pp => cand_c.map (fun cc => ⟨rr, pp, cc⟩)))

/-- The score of one candidate bar triple (src/engine.py lines 78-82):
`reward + safety + pen` with `ge` the first batch's GO-rate and `gc` the
second batch's; `none` models a NaN score (empty batch). -/
def scoreOf (cons_df opp_df : List Row) (b : Bars) : Option ℚ :=
  match go_rate cons_df b, go_rate opp_df b with
  | some ge, some gc =>
      some ((1 - |gc - 33/100|) + (b.cvar + 20) / 10
        + (if ge ≤ 15/100 then 0 else -5 * (ge - 15/100)))
  | _, _ => none

/-- One iteration of the `autotune_bars` search loop: replace the running
best exactly when the candidate's score is strictly greater. -/
def tuneStep (cons_df opp_df : List Row) (st : Bars × ℚ) (b : Bars) : Bars × ℚ :=
  match scoreOf cons_df opp_df b with
  | none => st
  | some v => if st.2 < v then (b, v) else st

/-- `autotune_bars(cons_df, _, opp_df, _, defaults)` (src/engine.py lines
69-85): the triple-nested loop with running `best`/`best_score` state is the
fold of `tuneStep` over the flattened Cartesian product, starting from the
defaults and the sentinel score `-1`.  (The two summary arguments of the
Python function are unused by its body and omitted.) -/
def autotune_bars (cons_df opp_df : List Row) (defaults : Bars) : Bars :=
  (candList.foldl (tuneStep cons_df opp_df) (defaults, -1)).1

/-- Characterisation of the search fold: either no candidate scored
strictly above the initial state and the state is returned unchanged, or
the result is the earliest-enumerated candidate achieving the strictly
highest score. -/
theorem tuneFold_char (cons_df opp_df : List Row) :
    ∀ (l : List Bars) (b0 : Bars) (s0 : ℚ),
      (l.foldl (tuneStep cons_df opp_df) (b0, s0) = (b0, s0) ∧
        ∀ x ∈ l, ∀ w, scoreOf cons_df opp_df x = some w → w ≤ s0) ∨
      (∃ b v l1 l2, l = l1 ++ b :: l2 ∧
        l.foldl (tuneStep cons_df opp_df) (b0, s0) = (b, v) ∧
        scoreOf cons_df opp_df b = some v ∧ s0 < v ∧
        (∀ x ∈ l1, ∀ w, scoreOf cons_df opp_df x = some w → w < v) ∧
        (∀ x ∈ l2, ∀ w, scoreOf cons_df opp_df x = some w → w ≤ v)) := by
  intro l
  induction l with
  | nil =>
    intro b0 s0
    exact Or.inl ⟨rfl, by simp⟩
  | cons x xs ih =>
    intro b0 s0
    rw [List.foldl_cons]
    rcases hsx : scoreOf cons_df opp_df x with _ | w
    · have hstep : tuneStep cons_df opp_df (b0, s0) x = (b0, s0) := by
        unfold tuneStep; rw [hsx]
      rw [hstep]
      rcases ih b0 s0 with ⟨he, hall⟩ | ⟨b, v, l1, l2, hl, hf, hs, hs0, h1, h2⟩
      · refine Or.inl ⟨he, ?_⟩
        intro y hy w hw
        rcases List.mem_cons.mp hy with rfl | hy'
        · rw [hsx] at hw; exact absurd hw (by simp)
        · exact hall y hy' w hw
      · refine Or.inr ⟨b, v, x :: l1, l2, by rw [hl, List.cons_append], hf, hs, hs0, ?_, h2⟩
        intro y hy w hw
        rcases List.mem_cons.mp hy with rfl | hy'
        · rw [hsx] at hw; exact absurd hw (by simp)
        · exact h1 y hy' w hw
    · by_cases hcmp : s0 < w
      · have hstep : tuneStep cons_df opp_df (b0, s0) x = (x, w) := by
          unfold tuneStep; rw [hsx]; simp [hcmp]
        rw [hstep]
        rcases ih x w with ⟨he, hall⟩ | ⟨b, v, l1, l2, hl, hf, hs, hs0, h1, h2⟩
        · exact Or.inr ⟨x, w, [], xs, rfl, he, hsx, hcmp, by simp, hall⟩
        · refine Or.inr ⟨b, v, x :: l1, l2, by rw [hl, List.cons_append], hf, hs, lt_trans hcmp hs0, ?_, h2⟩
          intro y hy w' hw'
          rcases List.mem_cons.mp hy with rfl | hy'
          · rw [hsx] at hw'
            exact (Option.some.injEq _ _ ▸ hw') ▸ hs0
          · exact h1 y hy' w' hw'
      · have hstep : tuneStep cons_df opp_df (b0, s0) x = (b0, s0) := by
          unfold tuneStep; rw [hsx]; simp [hcmp]
        rw [hstep]
        push_neg at hcmp
        rcases ih b0 s0 with ⟨he, hall⟩ | ⟨b, v, l1, l2, hl, hf, hs, hs0, h1, h2⟩
        · refine Or.inl ⟨he, ?_⟩
          intro y hy w' hw'
          rcases List.mem_cons.mp hy with rfl | hy'
          · rw [hsx] at hw'
            exact (Option.some.injEq _ _ ▸ hw') ▸ hcmp
          · exact hall y hy' w' hw'
        · refine Or.inr ⟨b, v, x :: l1, l2, by rw [hl, List.cons_append], hf, hs, hs0, ?_, h2⟩
          intro y hy w' hw'
          rcases List.mem_cons.mp hy with rfl | hy'
          · rw [hsx] at hw'
            exact (Option.some.injEq _ _ ▸ hw') ▸ lt_of_le_of_lt hcmp hs0
          · exact h1 y hy' w' hw'

/-- A fold over candidates that all score `none` (NaN) leaves the state
unchanged. -/
theorem tuneFold_skip (cons_df opp_df : List Row) :
    ∀ (l : List Bars) (st : Bars × ℚ),
      (∀ b ∈ l, scoreOf cons_df opp_df b = none) →
      l.foldl (tuneStep cons_df opp_df) st = st := by
  intro l
  induction l with
  | nil => intro st _; rfl
  | cons x xs ih =>
    intro st h
    rw [List.foldl_cons]
    have hstep : tuneStep cons_df opp_df st x = st := by
      unfold tuneStep; rw [h x (by simp)]
    rw [hstep]
    exact ih st (fun b hb => h b (by simp [hb]))

/-- C3: the autotuner scores every candidate of the Cartesian product grid
as `reward + safety + penalty` (reward `1 - |gc - 0.33|`, safety
`(cvar + 20)/10`, penalty `0` if `ge ≤ 0.15` else `-5 (ge - 0.15)`), and
returns the earliest-enumerated candidate achieving the strictly highest
score; if no candidate's score exceeds the `-1` sentinel (in particular if
a batch is empty, when every score is NaN) the supplied defaults are
returned unchanged. -/
theorem autotune_bars_selection (cons_df opp_df : List Row) (d : Bars) :
    (∀ b ge gc, go_rate cons_df b = some ge → go_rate opp_df b = some gc →
        scoreOf cons_df opp_df b =
          some ((1 - |gc - 33/100|) + (b.cvar + 20) / 10
            + (if ge ≤ 15/100 then 0 else -5 * (ge - 15/100)))) ∧
    ((autotune_bars cons_df opp_df d = d ∧
        ∀ x ∈ candList, ∀ w, scoreOf cons_df opp_df x = some w → w ≤ -1) ∨
      (∃ b v l1 l2, candList = l1 ++ b :: l2 ∧
        autotune_bars cons_df opp_df d = b ∧
        scoreOf cons_df opp_df b = some v ∧ -1 < v ∧
        (∀ x ∈ l1, ∀ w, scoreOf cons_df opp_df x = some w → w < v) ∧
        (∀ x ∈ l2, ∀ w, scoreOf cons_df opp_df x = some w → w ≤ v))) := by
  constructor
  · intro b ge gc h1 h2
    unfold scoreOf
    rw [h1, h2]
  · unfold autotune_bars
    rcases tuneFold_char cons_df opp_df candList d (-1) with ⟨he, hall⟩ | h
    · exact Or.inl ⟨by rw [he], hall⟩
    · rcases h with ⟨b, v, l1, l2, hl, hf, hs, hs0, h1, h2⟩
      exact Or.inr ⟨b, v, l1, l2, hl, by rw [hf], hs, hs0, h1, h2⟩

/-- Membership in the candidate product determines membership of each field
in its grid. -/
theorem candList_fields {b : Bars} (hb : b ∈ candList) :
    b.risk_adj ∈ cand_r ∧ b.ploss ∈ cand_p ∧ b.cvar ∈ cand_c := by
  unfold candList at hb
  rcases List.mem_bind.mp hb with ⟨rr, hrr, hb1⟩
  rcases List.mem_bind.mp hb1 with ⟨pp, hpp, hb2⟩
  rcases List.mem_map.mp hb2 with ⟨cc, hcc, rfl⟩
  exact ⟨hrr, hpp, hcc⟩

/-- C4 counterexample: with empty batches the autotuner returns the
supplied default triple unchanged, and a default with `risk_adj = 5` (and
likewise the other fields) lies outside the declared grids. -/
theorem autotune_bars_grid_cex :
    autotune_bars [] [] ⟨5, 5, 5⟩ = ⟨5, 5, 5⟩ ∧
    (5 : ℚ) ∉ cand_r ∧ (5 : ℚ) ∉ cand_p ∧ (5 : ℚ) ∉ cand_c := by
  refine ⟨?_, ?_, ?_, ?_⟩
  · unfold autotune_bars
    rw [tuneFold_skip [] [] candList (⟨5, 5, 5⟩, -1) (fun b _ => rfl)]
  · with_unfolding_all decide
  · with_unfolding_all decide
  · with_unfolding_all decide

/-- C4 amended: the autotuner's result is either the supplied default
triple unchanged (when no candidate beats the sentinel) or an element of
the declared grids in each of its three fields. -/
theorem autotune_bars_in_grid (cons_df opp_df : List Row) (d : Bars) :
    autotune_bars cons_df opp_df d = d ∨
      ((autotune_bars cons_df opp_df d).risk_adj ∈ cand_r ∧
        (autotune_bars cons_df opp_df d).ploss ∈ cand_p ∧
        (autotune_bars cons_df opp_df d).cvar ∈ cand_c) := by
  unfold autotune_bars
  rcases tuneFold_char cons_df opp_df candList d (-1) with ⟨he, _⟩ | h
  · exact Or.inl (by rw [he])
  · rcases h with ⟨b, v, l1, l2, hl, hf, _, _, _, _⟩
    refine Or.inr ?_
    rw [hf]
    exact candList_fields (hl ▸ List.mem_append_right l1 (List.mem_cons_self b l2))

/-- The two risk postures. -/
inductive Lens
  | Engineer
  | Consumer
deriving DecidableEq

/-- An `np.random.Generator` instance, modelled as the deterministic table
of draws a seeded generator produces: `normal t j` is entry `(t, j)` of
`standard_normal((sims, 3))` and `choose3 p t` is trial `t` of
`choice([0,1,2], size=sims, p=p)`. -/
structure Rng where
  normal : ℕ → Fin 3 → ℚ
  choose3 : (Fin 3 → ℚ) → ℕ → Fin 3

/-- The floating-point library primitives the simulator calls (`np.exp`,
`np.log`, `np.linalg.cholesky`), passed explicitly as deterministic
functions; `chol` maps the jittered correlation matrix to its
lower-triangular factor. -/
structure NumLib where
  expf : ℚ → ℚ
  logf : ℚ → ℚ
  chol : (Fin 3 → Fin 3 → ℚ) → (Fin 3 → Fin 3 → ℚ)

/-- The fixed correlation matrix `R` (src/engine.py line 34). -/
def corrR : Fin 3 → Fin 3 → ℚ :=
  ![![1, -35/100, 20/100], ![-35/100, 1, 15/100], ![20/100, 15/100, 1]]

/-- `gaussian_copula_normals(rng, n, R)` (src/engine.py lines 21-24):
standard normal draws transformed by the Cholesky factor of `R` plus a
`1e-12` diagonal jitter; entry `(t, j)` of `Z @ L.T`. The trial count `n`
only fixes the array extent and the function is defined on every index. -/
def gaussian_copula_normals (nl : NumLib) (rng : Rng) (n : ℕ)
    (R : Fin 3 → Fin 3 → ℚ) : ℕ → Fin 3 → ℚ :=
  let _ := n
  let L := nl.chol (fun i j => R i j + if i = j then 1/1000000000000 else 0)
  fun t j => ∑ k : Fin 3, rng.normal t k * L j k

/-- Regime mixture per lens (src/engine.py line 36). -/
def regimes : Lens → Fin 3 → ℚ
  | .Engineer => ![20/100, 60/100, 20/100]
  | .Consumer => ![15/100, 60/100, 25/100]

/-- Regime-conditioned sale-price shift `[-0.03, 0.0, 0.02]`. -/
def arvShift : Fin 3 → ℚ := ![-3/100, 0, 2/100]

/-- Regime-conditioned hold-duration shift `[0.6, 0.0, -0.3]`. -/
def holdShift : Fin 3 → ℚ := ![6/10, 0, -3/10]

/-- Lens volatilities `(rehab_sd, arv_sd, hold_sd)` (src/engine.py line 40). -/
def lensSds : Lens → ℚ × ℚ × ℚ
  | .Engineer => (30/100, 15/100, 140/100)
  | .Consumer => (15/100, 8/100, 70/100)

/-- One deal record (one row of the input DataFrame), with the source's
column names; `hold_months`, `permit_delay_days`, `tax_drag`, `ltv` and
`loan_rate_annual` are read with `.get` defaults 4 / 0 / 0.02 / 0.8 / 0.085
by the source, here always-present fields. -/
structure Deal where
  address : String
  region_ring : String
  purchase : ℚ
  rehab : ℚ
  carry : ℚ
  selling_pct : ℚ
  projected_sale : ℚ
  hold_months : ℚ
  permit_delay_days : ℚ
  tax_drag : ℚ
  ltv : ℚ
  loan_rate_annual : ℚ
deriving DecidableEq

/-- The per-trial quantities of `simulate_once` (src/engine.py lines 48-55). -/
structure Trial where
  rehab_draw : ℚ
  sale_draw : ℚ
  hold_draw : ℚ
  tpc : ℚ
  roi : ℚ
deriving DecidableEq

/-- One trial of the Monte Carlo inner computation (src/engine.py lines
48-55) at correlated draw `z` (columns arv/hold/rehab) and regime index
`k`: log-normal rehab draw centered on `max(rehab, 1)`, floored sale and
hold draws, financing, selling, carrying and tax costs, total project cost
and ROI. -/
def trialCalc (nl : NumLib) (rehab_sd arv_sd hold_sd : ℚ) (d : Deal)
    (z : Fin 3 → ℚ) (k : Fin 3) : Trial :=
  let rehab_draw := nl.expf (nl.logf (max d.rehab 1) + rehab_sd * z 2)
  let sale_draw := max (d.projected_sale * (1 + arv_sd * z 0 + arvShift k)) (1/2 * d.purchase)
  let hold_draw := max (d.hold_months + d.permit_delay_days / 30 + hold_sd * z 1 + holdShift k) 1
  let loan_amt := d.ltv * d.purchase
  let interest_cost := loan_amt * d.loan_rate_annual * (hold_draw / 12)
  let sell_cost := clipQ d.selling_pct 0 (12/100) * sale_draw
  let carry_total := d.carry / max 1 d.hold_months * hold_draw
  let tax_drag_amt := d.tax_drag * d.purchase * (hold_draw / 12)
  let tpc := d.purchase + rehab_draw + carry_total + interest_cost + tax_drag_amt + sell_cost
  ⟨rehab_draw, sale_draw, hold_draw, tpc, (sale_draw - tpc) / tpc⟩

/-- Linear interpolation into a (sorted) value list at virtual index `v`,
the core of `np.percentile`'s default method. -/
def interpQ (s : List ℚ) (v : ℚ) : ℚ :=
  s.getD ((⌊v⌋).toNat) 0 +
    (v - (((⌊v⌋).toNat : ℕ) : ℚ)) *
      (s.getD ((⌊v⌋).toNat + 1) 0 - s.getD ((⌊v⌋).toNat) 0)

/-- `np.percentile(l, q)` with the default linear-interpolation method:
sort, then interpolate at virtual index `q (n-1) / 100`. -/
def percQ (l : List ℚ) (q : ℚ) : ℚ :=
  let s := sortQ l
  interpQ s (q * ((s.length : ℚ) - 1) / 100)

/-- `cvar5_empirical(roi)` (src/engine.py lines 26-29): mean of the values
at or below the empirical 5th percentile, or that percentile itself when
the tail selection is empty. -/
def cvar5_empirical (l : List ℚ) : ℚ :=
  let p5 := percQ l 5
  let tail := l.filter (fun x => leB x p5)
  if tail.length > 0 then tail.sum / (tail.length : ℚ) else p5

/-- The per-trial ROI vector of one deal (src/engine.py lines 48-55
applied across `range sims`). -/
def roiOf (nl : NumLib) (sds : ℚ × ℚ × ℚ) (Zc : ℕ → Fin 3 → ℚ)
    (idx : ℕ → Fin 3) (sims : ℕ) (d : Deal) : List ℚ :=
  (List.range sims).map (fun t => (trialCalc nl sds.1 sds.2.1 sds.2.2 d (Zc t) (idx t)).roi)

/-- The per-deal body of `simulate_once`'s loop (src/engine.py lines
42-61), producing one result row from the draw tables and the friction
index. -/
def simOneDeal (nl : NumLib) (sds : ℚ × ℚ × ℚ) (Zc : ℕ → Fin 3 → ℚ)
    (idx : ℕ → Fin 3) (sims : ℕ) (hi : ℚ) (d : Deal) : Row :=
  let roiList := roiOf nl sds Zc idx sims d
  let p_loss := ((roiList.filter (fun x => ltB x 0)).length : ℚ) / (sims : ℚ)
  let p5 := percQ roiList 5
  let p10 := percQ roiList 10
  let p50 := percQ roiList 50
  let p90 := percQ roiList 90
  let cvar5 := cvar5_empirical roiList
  let risk_adj := (1 - hi / 100) * p50
  { address := d.address, region_ring := d.region_ring, hi := round1 hi,
    p10 := round2 (100 * p10), p50 := round2 (100 * p50), p90 := round2 (100 * p90),
    var5 := round2 (100 * p5), cvar5 := round2 (100 * cvar5),
    ploss := round2 (100 * p_loss), risk_adj := round2 (100 * risk_adj), lens := "" }

/-- A Python `for` loop building a list of results where each step may
raise: `none` aborts the whole call. -/
def mapOpt (f : α → Option β) : List α → Option (List β)
  | [] => some []
  | a :: l =>
    match f a, mapOpt f l with
    | some b, some bs => some (b :: bs)
    | _, _ => none

/-- `simulate_once(df, regional_map, sims, lens, rng)` (src/engine.py lines
31-62).  `rng?` is the optional explicit generator; `entropy` stands for
the fresh unseeded `np.random.default_rng()` the source constructs when no
generator is passed. -/
def simulate_once (nl : NumLib) (df : List Deal) (m : RegionalMap) (sims : ℕ)
    (lens : Lens) (rng? : Option Rng) (entropy : Rng) : Option (List Row) :=
  let rng := rng?.getD entropy
  let Zc := gaussian_copula_normals nl rng sims corrR
  let idx := rng.choose3 (regimes lens)
  mapOpt (fun d => (headwind_index d.region_ring m).map
    (fun hi => simOneDeal nl (lensSds lens) Zc idx sims hi d)) df

/-- C5: the simulator is a pure function of its explicit inputs — when a
generator instance is passed, two runs given equal generator instances
(e.g. two instances initialised with the same fixed seed) produce identical
result rows, whatever ambient entropy each run's environment had. -/
theorem simulate_once_deterministic (nl : NumLib) (df : List Deal)
    (m : RegionalMap) (sims : ℕ) (lens : Lens) (g1 g2 e1 e2 : Rng)
    (hseed : g1 = g2) :
    simulate_once nl df m sims lens (some g1) e1 =
      simulate_once nl df m sims lens (some g2) e2 := by
  subst hseed
  rfl

/-- The trivial numeric library used by concrete witnesses: a constant
positive exponential, a constant logarithm and a zero Cholesky factor. -/
def nl0 : NumLib := ⟨fun _ => 1, fun _ => 0, fun _ => fun _ _ => 0⟩

/-- A concrete generator producing all-zero normals and always the middle
(base) regime. -/
def rng0 : Rng := ⟨fun _ _ => 0, fun _ _ => 1⟩

/-- A different concrete generator (distinct ambient entropy). -/
def rngAlt : Rng := ⟨fun _ _ => 5, fun _ _ => 0⟩

/-- A concrete one-ring regional table. -/
def map0 : RegionalMap := ⟨[("A", ⟨0, 0, 1, 0, 0⟩)]⟩

/-- A concrete deal used by witnesses. -/
def deal0 : Deal := ⟨"a", "A", 1, 0, 0, 0, 0, 1, 0, 0, 0, 0⟩

/-- Witness for C5: with the same explicit generator, two runs under
different ambient entropy agree. -/
theorem simulate_once_deterministic_witness :
    simulate_once nl0 [deal0] map0 1 Lens.Engineer (some rng0) rng0 =
      simulate_once nl0 [deal0] map0 1 Lens.Engineer (some rng0) rngAlt :=
  simulate_once_deterministic nl0 [deal0] map0 1 Lens.Engineer rng0 rng0 rng0 rngAlt rfl

/-- C10: under the upstream schema's invariants (positive purchase,
non-negative rehab, carry, ltv, rate and tax), and positivity of the
library exponential, every trial's rehab draw is strictly positive; a rehab
estimate at or below 1 centers the log-normal on `max(rehab, 1) = 1` rather
than the estimate; and the total project cost is strictly positive, so the
per-trial ROI division never divides by zero. -/
theorem trialCalc_pos (nl : NumLib) (rsd asd hsd : ℚ) (d : Deal)
    (z : Fin 3 → ℚ) (k : Fin 3) (hexp : ∀ x, 0 < nl.expf x)
    (hp : 0 < d.purchase) (hrehab : 0 ≤ d.rehab) (hcarry : 0 ≤ d.carry)
    (hltv : 0 ≤ d.ltv) (hrate : 0 ≤ d.loan_rate_annual) (htax : 0 ≤ d.tax_drag) :
    0 < (trialCalc nl rsd asd hsd d z k).rehab_draw ∧
    (d.rehab ≤ 1 →
      (trialCalc nl rsd asd hsd d z k).rehab_draw = nl.expf (nl.logf 1 + rsd * z 2)) ∧
    0 < (trialCalc nl rsd asd hsd d z k).tpc ∧
    (trialCalc nl rsd asd hsd d z k).tpc ≠ 0 := by
  have hrehab_draw : 0 < nl.expf (nl.logf (max d.rehab 1) + rsd * z 2) := hexp _
  have hsale : (0 : ℚ) ≤ max (d.projected_sale * (1 + asd * z 0 + arvShift k)) (1/2 * d.purchase) :=
    le_trans (show (0 : ℚ) ≤ 1/2 * d.purchase by linarith) (le_max_right _ _)
  have hhold : (1 : ℚ) ≤ max (d.hold_months + d.permit_delay_days / 30 + hsd * z 1 + holdShift k) 1 :=
    le_max_right _ _
  have hhold0 : (0 : ℚ) ≤ max (d.hold_months + d.permit_delay_days / 30 + hsd * z 1 + holdShift k) 1 :=
    le_trans zero_le_one hhold
  have hinterest : (0 : ℚ) ≤ d.ltv * d.purchase * d.loan_rate_annual *
      (max (d.hold_months + d.permit_delay_days / 30 + hsd * z 1 + holdShift k) 1 / 12) :=
    mul_nonneg (mul_nonneg (mul_nonneg hltv (le_of_lt hp)) hrate)
      (div_nonneg hhold0 (by norm_num))
  have hsell : (0 : ℚ) ≤ clipQ d.selling_pct 0 (12/100) *
      max (d.projected_sale * (1 + asd * z 0 + arvShift k)) (1/2 * d.purchase) := by
    have hclip : (0 : ℚ) ≤ clipQ d.selling_pct 0 (12/100) :=
      le_min (le_max_right _ _) (by norm_num)
    exact mul_nonneg hclip hsale
  have hcarryt : (0 : ℚ) ≤ d.carry / max 1 d.hold_months *
      max (d.hold_months + d.permit_delay_days / 30 + hsd * z 1 + holdShift k) 1 := by
    have hden : (0 : ℚ) < max 1 d.hold_months := lt_of_lt_of_le zero_lt_one (le_max_left _ _)
    exact mul_nonneg (div_nonneg hcarry (le_of_lt hden)) hhold0
  have htaxa : (0 : ℚ) ≤ d.tax_drag * d.purchase *
      (max (d.hold_months + d.permit_delay_days / 30 + hsd * z 1 + holdShift k) 1 / 12) :=
    mul_nonneg (mul_nonneg htax (le_of_lt hp)) (div_nonneg hhold0 (by norm_num))
  have htpc : 0 < (trialCalc nl rsd asd hsd d z k).tpc := by
    show 0 < d.purchase + _ + _ + _ + _ + _
    linarith
  refine ⟨hrehab_draw, ?_, htpc, ne_of_gt htpc⟩
  intro h1
  show nl.expf (nl.logf (max d.rehab 1) + rsd * z 2) = _
  rw [max_eq_right h1]

/-- Witness for C10 at a concrete deal with `rehab = 0` (permitted by the
upstream schema). -/
theorem trialCalc_pos_witness :
    0 < (trialCalc nl0 (30/100) (15/100) (140/100) deal0 (fun _ => 0) 1).rehab_draw ∧
    (deal0.rehab ≤ 1 →
      (trialCalc nl0 (30/100) (15/100) (140/100) deal0 (fun _ => 0) 1).rehab_draw =
        nl0.expf (nl0.logf 1 + (30/100) * (fun _ => (0:ℚ)) 2)) ∧
    0 < (trialCalc nl0 (30/100) (15/100) (140/100) deal0 (fun _ => 0) 1).tpc ∧
    (trialCalc nl0 (30/100) (15/100) (140/100) deal0 (fun _ => 0) 1).tpc ≠ 0 :=
  trialCalc_pos nl0 (30/100) (15/100) (140/100) deal0 (fun _ => 0) 1
    (fun _ => one_pos) one_pos le_rfl le_rfl le_rfl le_rfl le_rfl

theorem sortQ_sorted (l : List ℚ) : (sortQ l).Sorted (· ≤ ·) :=
  List.sorted_insertionSort (· ≤ ·) l

theorem sortQ_length (l : List ℚ) : (sortQ l).length = l.length :=
  List.length_insertionSort (· ≤ ·) l

theorem getD_mem_of_lt : ∀ {l : List ℚ} {i : ℕ}, i < l.length → l.getD i 0 ∈ l := by
  intro l
  induction l with
  | nil => intro i hi; simp at hi
  | cons a t ih =>
    intro i hi
    cases i with
    | zero => simp
    | succ i' =>
      rw [List.getD_cons_succ]
      exact List.mem_cons_of_mem _ (ih (by simpa using hi))

/-- In a sorted list, values are monotone in the (defaulted) index. -/
theorem sorted_getD_mono : ∀ {s : List ℚ}, s.Sorted (· ≤ ·) →
    ∀ {i j : ℕ}, i ≤ j → j < s.length → s.getD i 0 ≤ s.getD j 0 := by
  intro s
  induction s with
  | nil => intro _ i j _ hj; simp at hj
  | cons a t ih =>
    intro hs i j hij hj
    rcases List.sorted_cons.mp hs with ⟨ha, ht⟩
    cases i with
    | zero =>
      cases j with
      | zero => exact le_rfl
      | succ j' =>
        have hj' : j' < t.length := by simpa using hj
        exact ha _ (getD_mem_of_lt hj')
    | succ i' =>
      cases j with
      | zero => omega
      | succ j' =>
        exact ih ht (by omega) (by simpa using hj)

/-- Piecewise-linear interpolation of a sorted value list is monotone in
the virtual index. -/
theorem interpQ_mono (s : List ℚ) (hs : s.Sorted (· ≤ ·)) (v1 v2 : ℚ)
    (h0 : 0 ≤ v1) (h12 : v1 ≤ v2) (hn : v2 ≤ (s.length : ℚ) - 1) :
    interpQ s v1 ≤ interpQ s v2 := by
  have h02 : 0 ≤ v2 := le_trans h0 h12
  have hfl1 : (0 : ℤ) ≤ ⌊v1⌋ := Int.floor_nonneg.mpr h0
  have hfl2 : (0 : ℤ) ≤ ⌊v2⌋ := Int.floor_nonneg.mpr h02
  have hc1 : (((⌊v1⌋).toNat : ℕ) : ℚ) = ((⌊v1⌋ : ℤ) : ℚ) := by
    rw [← Int.toNat_of_nonneg hfl1]
    push_cast
    rw [Int.toNat_of_nonneg hfl1]
  have hc2 : (((⌊v2⌋).toNat : ℕ) : ℚ) = ((⌊v2⌋ : ℤ) : ℚ) := by
    rw [← Int.toNat_of_nonneg hfl2]
    push_cast
    rw [Int.toNat_of_nonneg hfl2]
  have hi1v : (((⌊v1⌋).toNat : ℕ) : ℚ) ≤ v1 := by rw [hc1]; exact Int.floor_le v1
  have hv1i : v1 < (((⌊v1⌋).toNat : ℕ) : ℚ) + 1 := by rw [hc1]; exact Int.lt_floor_add_one v1
  have hi2v : (((⌊v2⌋).toNat : ℕ) : ℚ) ≤ v2 := by rw [hc2]; exact Int.floor_le v2
  have hv2i : v2 < (((⌊v2⌋).toNat : ℕ) : ℚ) + 1 := by rw [hc2]; exact Int.lt_floor_add_one v2
  have hn1 : 1 ≤ s.length := by
    rcases Nat.eq_zero_or_pos s.length with h0n | h1n
    · exfalso
      rw [h0n] at hn
      norm_num at hn
      linarith
    · exact h1n
  have hi2n : (⌊v2⌋).toNat < s.length := by
    have hfloor2 : ⌊v2⌋ ≤ (s.length : ℤ) - 1 := by
      have hcast : ((((s.length : ℤ) - 1 : ℤ)) : ℚ) = (s.length : ℚ) - 1 := by push_cast; ring
      have hle : v2 ≤ ((((s.length : ℤ) - 1 : ℤ)) : ℚ) := by rw [hcast]; exact hn
      calc ⌊v2⌋ ≤ ⌊((((s.length : ℤ) - 1 : ℤ)) : ℚ)⌋ := Int.floor_mono hle
        _ = (s.length : ℤ) - 1 := Int.floor_intCast _
    omega
  have hi12 : (⌊v1⌋).toNat ≤ (⌊v2⌋).toNat := Int.toNat_le_toNat (Int.floor_mono h12)
  unfold interpQ
  rcases eq_or_lt_of_le hi12 with heq | hlt
  · rw [← heq]
    by_cases hsucc : (⌊v1⌋).toNat + 1 < s.length
    · have hD : 0 ≤ s.getD ((⌊v1⌋).toNat + 1) 0 - s.getD ((⌊v1⌋).toNat) 0 :=
        sub_nonneg.mpr (sorted_getD_mono hs (Nat.le_succ _) hsucc)
      have := mul_le_mul_of_nonneg_right (sub_le_sub_right h12 (((⌊v1⌋).toNat : ℚ))) hD
      linarith
    · have h1n : (⌊v1⌋).toNat < s.length := heq ▸ hi2n
      have hieq : (⌊v1⌋).toNat = s.length - 1 := by omega
      have hcast : (((⌊v1⌋).toNat : ℕ) : ℚ) = (s.length : ℚ) - 1 := by
        rw [hieq, Nat.cast_sub hn1, Nat.cast_one]
      have hv12 : v1 = v2 := by
        apply le_antisymm h12
        calc v2 ≤ (s.length : ℚ) - 1 := hn
          _ = (((⌊v1⌋).toNat : ℕ) : ℚ) := hcast.symm
          _ ≤ v1 := hi1v
      rw [hv12]
  · have h1n : (⌊v1⌋).toNat + 1 < s.length := by omega
    have hg1 : 0 ≤ v1 - (((⌊v1⌋).toNat : ℕ) : ℚ) := by linarith
    have hg1' : v1 - (((⌊v1⌋).toNat : ℕ) : ℚ) ≤ 1 := by linarith
    have hAB : s.getD ((⌊v1⌋).toNat) 0 ≤ s.getD ((⌊v1⌋).toNat + 1) 0 :=
      sorted_getD_mono hs (Nat.le_succ _) h1n
    have step1 : s.getD ((⌊v1⌋).toNat) 0 + (v1 - (((⌊v1⌋).toNat : ℕ) : ℚ)) *
        (s.getD ((⌊v1⌋).toNat + 1) 0 - s.getD ((⌊v1⌋).toNat) 0) ≤
        s.getD ((⌊v1⌋).toNat + 1) 0 := by
      have := mul_le_mul_of_nonneg_right hg1' (sub_nonneg.mpr hAB)
      linarith
    have step2 : s.getD ((⌊v1⌋).toNat + 1) 0 ≤ s.getD ((⌊v2⌋).toNat) 0 :=
      sorted_getD_mono hs (by omega) hi2n
    have step3 : s.getD ((⌊v2⌋).toNat) 0 ≤
        s.getD ((⌊v2⌋).toNat) 0 + (v2 - (((⌊v2⌋).toNat : ℕ) : ℚ)) *
          (s.getD ((⌊v2⌋).toNat + 1) 0 - s.getD ((⌊v2⌋).toNat) 0) := by
      by_cases h2n : (⌊v2⌋).toNat + 1 < s.length
      · have hD2 : 0 ≤ s.getD ((⌊v2⌋).toNat + 1) 0 - s.getD ((⌊v2⌋).toNat) 0 :=
          sub_nonneg.mpr (sorted_getD_mono hs (Nat.le_succ _) h2n)
        have hg2 : 0 ≤ v2 - (((⌊v2⌋).toNat : ℕ) : ℚ) := by linarith
        nlinarith
      · have hieq : (⌊v2⌋).toNat = s.length - 1 := by omega
        have hcast : (((⌊v2⌋).toNat : ℕ) : ℚ) = (s.length : ℚ) - 1 := by
          rw [hieq, Nat.cast_sub hn1, Nat.cast_one]
        have hzero : v2 - (((⌊v2⌋).toNat : ℕ) : ℚ) = 0 := by
          have hup : v2 ≤ (((⌊v2⌋).toNat : ℕ) : ℚ) := by rw [hcast]; exact hn
          linarith
        rw [hzero, zero_mul, add_zero]
    linarith

/-- `np.percentile` is monotone in the percentile rank on a non-empty list. -/
theorem percQ_mono (l : List ℚ) (hl : l ≠ []) (q1 q2 : ℚ)
    (h0 : 0 ≤ q1) (h12 : q1 ≤ q2) (h100 : q2 ≤ 100) :
    percQ l q1 ≤ percQ l q2 := by
  unfold percQ
  have hs : (sortQ l).Sorted (· ≤ ·) := sortQ_sorted l
  have hn : 1 ≤ (sortQ l).length := by
    rw [sortQ_length]
    exact List.length_pos.mpr hl
  have hnq : (0 : ℚ) ≤ ((sortQ l).length : ℚ) - 1 := by
    have : (1 : ℚ) ≤ ((sortQ l).length : ℚ) := by exact_mod_cast hn
    linarith
  apply interpQ_mono _ hs
  · positivity
  · apply div_le_div_of_nonneg_right ?_ (by norm_num)
    exact mul_le_mul_of_nonneg_right h12 hnq
  · rw [div_le_iff (by norm_num : (0:ℚ) < 100)]
    nlinarith

/-- The empirical CVaR5 never exceeds the 5th-percentile VaR. -/
theorem cvar5_le_percQ5 (l : List ℚ) : cvar5_empirical l ≤ percQ l 5 := by
  unfold cvar5_empirical
  by_cases h : (l.filter (fun x => leB x (percQ l 5))).length > 0
  · rw [if_pos h]
    have hall : ∀ x ∈ l.filter (fun x => leB x (percQ l 5)), x ≤ percQ l 5 := by
      intro x hx
      exact (leB_iff x (percQ l 5)).mp (List.mem_filter.mp hx).2
    have hsum : (l.filter (fun x => leB x (percQ l 5))).sum ≤
        ((l.filter (fun x => leB x (percQ l 5))).length : ℚ) * percQ l 5 := by
      calc (l.filter (fun x => leB x (percQ l 5))).sum
          ≤ (l.filter (fun x => leB x (percQ l 5))).length • percQ l 5 :=
            List.sum_le_card_nsmul _ _ hall
        _ = ((l.filter (fun x => leB x (percQ l 5))).length : ℚ) * percQ l 5 :=
            nsmul_eq_mul _ _
    rw [div_le_iff (by exact_mod_cast h)]
    linarith
  · rw [if_neg h]

/-- `np.round(·, 2)` is monotone. -/
theorem round2_mono {x y : ℚ} (h : x ≤ y) : round2 x ≤ round2 y := by
  unfold round2
  have hr : round (x * 100) ≤ round (y * 100) := by
    rw [round_eq, round_eq]
    exact Int.floor_mono (by linarith)
  have hq : ((round (x * 100) : ℤ) : ℚ) ≤ ((round (y * 100) : ℤ) : ℚ) := by
    exact_mod_cast hr
  linarith

/-- An element of a successful `mapOpt` run comes from some input element. -/
theorem mapOpt_mem {α β : Type} (f : α → Option β) :
    ∀ (l : List α) (out : List β), mapOpt f l = some out →
      ∀ b ∈ out, ∃ a ∈ l, f a = some b := by
  intro l
  induction l with
  | nil =>
    intro out h b hb
    unfold mapOpt at h
    rcases Option.some.injEq _ _ ▸ h with rfl
    simp at hb
  | cons a t ih =>
    intro out h b hb
    unfold mapOpt at h
    rcases hfa : f a with _ | b0 <;> rw [hfa] at h
    · simp at h
    · rcases hrest : mapOpt f t with _ | bs <;> rw [hrest] at h
      · simp at h
      · simp only [Option.some.injEq] at h
        subst h
        rcases List.mem_cons.mp hb with rfl | hb'
        · exact ⟨a, List.mem_cons_self a t, hfa⟩
        · rcases ih bs hrest b hb' with ⟨a', ha', hfa'⟩
          exact ⟨a', List.mem_cons_of_mem a ha', hfa'⟩

/-- The per-trial ROI list of a deal has exactly `sims` entries. -/
theorem roiOf_ne_nil (nl : NumLib) (sds : ℚ × ℚ × ℚ) (Zc : ℕ → Fin 3 → ℚ)
    (idx : ℕ → Fin 3) (sims : ℕ) (d : Deal) (hs : 0 < sims) :
    roiOf nl sds Zc idx sims d ≠ [] := by
  unfold roiOf
  simp only [ne_eq, List.map_eq_nil_iff, List.range_eq_nil]
  omega

/-- The statistics of one simulated row are ordered: P10 ≤ P50 ≤ P90 and
CVaR5 ≤ VaR5, already at the reported (rounded) values. -/
theorem simOneDeal_stats (nl : NumLib) (sds : ℚ × ℚ × ℚ) (Zc : ℕ → Fin 3 → ℚ)
    (idx : ℕ → Fin 3) (sims : ℕ) (hi : ℚ) (d : Deal) (hs : 0 < sims) :
    (simOneDeal nl sds Zc idx sims hi d).p10 ≤ (simOneDeal nl sds Zc idx sims hi d).p50 ∧
    (simOneDeal nl sds Zc idx sims hi d).p50 ≤ (simOneDeal nl sds Zc idx sims hi d).p90 ∧
    (simOneDeal nl sds Zc idx sims hi d).cvar5 ≤ (simOneDeal nl sds Zc idx sims hi d).var5 := by
  have hne : roiOf nl sds Zc idx sims d ≠ [] := roiOf_ne_nil nl sds Zc idx sims d hs
  refine ⟨?_, ?_, ?_⟩
  · show round2 (100 * percQ (roiOf nl sds Zc idx sims d) 10) ≤
      round2 (100 * percQ (roiOf nl sds Zc idx sims d) 50)
    exact round2_mono (mul_le_mul_of_nonneg_left
      (percQ_mono _ hne 10 50 (by norm_num) (by norm_num) (by norm_num)) (by norm_num))
  · show round2 (100 * percQ (roiOf nl sds Zc idx sims d) 50) ≤
      round2 (100 * percQ (roiOf nl sds Zc idx sims d) 90)
    exact round2_mono (mul_le_mul_of_nonneg_left
      (percQ_mono _ hne 50 90 (by norm_num) (by norm_num) (by norm_num)) (by norm_num))
  · show round2 (100 * cvar5_empirical (roiOf nl sds Zc idx sims d)) ≤
      round2 (100 * percQ (roiOf nl sds Zc idx sims d) 5)
    exact round2_mono (mul_le_mul_of_nonneg_left (cvar5_le_percQ5 _) (by norm_num))

/-- C7: every result row of a simulation run with a positive trial count
reports P10 ≤ P50 ≤ P90 and CVaR5 ≤ VaR5 of the per-trial ROI
distribution; and the CVaR estimator equals the 5th-percentile value itself
whenever the set of trials at or below that percentile is empty. -/
theorem simulate_once_stats (nl : NumLib) (df : List Deal) (m : RegionalMap)
    (sims : ℕ) (lens : Lens) (rng? : Option Rng) (e : Rng) (hs : 0 < sims)
    (rows : List Row) (hrun : simulate_once nl df m sims lens rng? e = some rows)
    (row : Row) (hrow : row ∈ rows) :
    (row.p10 ≤ row.p50 ∧ row.p50 ≤ row.p90 ∧ row.cvar5 ≤ row.var5) ∧
    (∀ l : List ℚ, l.filter (fun x => leB x (percQ l 5)) = [] →
      cvar5_empirical l = percQ l 5) := by
  constructor
  · unfold simulate_once at hrun
    rcases mapOpt_mem _ df rows hrun row hrow with ⟨d, _, hroweq⟩
    rcases Option.map_eq_some'.mp hroweq with ⟨hi, _, hroweq2⟩
    rw [← hroweq2]
    exact simOneDeal_stats nl (lensSds lens) _ _ sims hi d hs
  · intro l hfil
    simp [cvar5_empirical, hfil]

/-- A concrete simulated row used by the C7 witness (the output of
`simulate_once` at the concrete inputs below). -/
def rowW : Row := ⟨"a", "A", 0, -75, -75, -75, -75, -75, 100, -75, ""⟩

/-- Witness for C7 at a concrete one-deal, one-trial run. -/
theorem simulate_once_stats_witness :
    ((rowW.p10 ≤ rowW.p50 ∧ rowW.p50 ≤ rowW.p90 ∧ rowW.cvar5 ≤ rowW.var5) ∧
      (∀ l : List ℚ, l.filter (fun x => leB x (percQ l 5)) = [] →
        cvar5_empirical l = percQ l 5)) :=
  simulate_once_stats nl0 [deal0] map0 1 Lens.Engineer (some rng0) rng0
    Nat.one_pos [rowW] (by with_unfolding_all rfl) rowW (List.mem_singleton.mpr rfl)

/-- One row of the `groupby(['region_ring','lens']).median()` aggregate of
`run_all` (src/engine.py line 102): the per-group medians of the columns
the opportunity builder reads. -/
structure Grp where
  region : String
  lens : String
  risk_adj : ℚ
  ploss : ℚ
  cvar5 : ℚ
deriving DecidableEq

/-- One row of the ranked opportunity table (src/engine.py line 107). -/
structure Opp where
  region : String
  lens : String
  risk_adj : ℚ
  ploss : ℚ
  cvar5 : ℚ
  status : String
  nudge : String
deriving DecidableEq

/-- Ascending lexicographic order on `(region, lens)` keys — the order in
which `pandas.groupby` lists its (sorted) groups. -/
def pairLe (a b : String × String) : Prop :=
  a.1 < b.1 ∨ (a.1 = b.1 ∧ a.2 ≤ b.2)

instance : DecidableRel pairLe := fun a b => by
  unfold pairLe
  infer_instance

instance : IsTrans (String × String) pairLe := ⟨by
  intro a b c hab hbc
  rcases hab with h1 | ⟨h1, h1r⟩ <;> rcases hbc with h2 | ⟨h2, h2r⟩
  · exact Or.inl (lt_trans h1 h2)
  · exact Or.inl (h2 ▸ h1)
  · exact Or.inl (h1 ▸ h2)
  · exact Or.inr ⟨h1.trans h2, le_trans h1r h2r⟩⟩

instance : IsTotal (String × String) pairLe := ⟨by
  intro a b
  rcases lt_trichotomy a.1 b.1 with h | h | h
  · exact Or.inl (Or.inl h)
  · rcases le_total a.2 b.2 with hr | hr
    · exact Or.inl (Or.inr ⟨h, hr⟩)
    · exact Or.inr (Or.inr ⟨h.symm, hr⟩)
  · exact Or.inr (Or.inl h)⟩

/-- The key order of `sort_values(['status','RiskAdj%'],
ascending=[True,False])` (src/engine.py line 108): status ascending in the
string order, then risk-adjusted ROI descending. -/
def oppLe (a b : Opp) : Prop :=
  a.status < b.status ∨ (a.status = b.status ∧ b.risk_adj ≤ a.risk_adj)

instance : DecidableRel oppLe := fun a b => by
  unfold oppLe
  infer_instance

instance : IsTrans Opp oppLe := ⟨by
  intro a b c hab hbc
  rcases hab with h1 | ⟨h1, h1r⟩ <;> rcases hbc with h2 | ⟨h2, h2r⟩
  · exact Or.inl (lt_trans h1 h2)
  · exact Or.inl (h2 ▸ h1)
  · exact Or.inl (h1 ▸ h2)
  · exact Or.inr ⟨h1.trans h2, le_trans h2r h1r⟩⟩

instance : IsTotal Opp oppLe := ⟨by
  intro a b
  rcases lt_trichotomy a.status b.status with h | h | h
  · exact Or.inl (Or.inl h)
  · rcases le_total b.risk_adj a.risk_adj with hr | hr
    · exact Or.inl (Or.inr ⟨h, hr⟩)
    · exact Or.inr (Or.inr ⟨h.symm, hr⟩)
  · exact Or.inr (Or.inl h)⟩

/-- The `(region_ring, lens)` group key of a result row. -/
def rowKey (r : Row) : String × String := (r.region_ring, r.lens)

/-- The distinct group keys in pandas' sorted ascending order. -/
def groupKeys (rows : List Row) : List (String × String) :=
  List.insertionSort pairLe (rows.map rowKey).dedup

/-- `groupby(['region_ring','lens'], as_index=False).median(numeric_only=True)`
restricted to the three columns the opportunity rows read. -/
def groupMedians (rows : List Row) : List Grp :=
  (groupKeys rows).map (fun k =>
    ⟨k.1, k.2,
      medianQ ((rows.filter (fun r => if rowKey r = k then true else false)).map (·.risk_adj)),
      medianQ ((rows.filter (fun r => if rowKey r = k then true else false)).map (·.ploss)),
      medianQ ((rows.filter (fun r => if rowKey r = k then true else false)).map (·.cvar5))⟩)

/-- The status and nudge assignment of one grouped row (src/engine.py lines
105-107). -/
def mkOpp (b : Bars) (g : Grp) : Opp :=
  if g.risk_adj ≥ b.risk_adj ∧ g.ploss ≤ b.ploss ∧ g.cvar5 > b.cvar then
    ⟨g.region, g.lens, g.risk_adj, g.ploss, g.cvar5, "GO",
      "Pursue comps & financing quotes now"⟩
  else
    ⟨g.region, g.lens, g.risk_adj, g.ploss, g.cvar5, "CAUTION",
      "Renegotiate price 5-10% or trim rehab 10-15%"⟩

/-- The summary object of `run_all`: per-lens decisions, the active bars
and (after autotuning) the defaults kept for comparison. -/
structure Sums where
  engineer : Summary
  consumer : Summary
  bars : Bars
  defaults : Option Bars
deriving DecidableEq

/-- Everything `run_all` returns, plus the best-effort cache writes it
attempted (path and written bars). -/
structure RunOut where
  both : List Row
  sums : Sums
  opps : List Opp
  writes : List (String × Bars)
deriving DecidableEq

/-- Tag a simulated row with its lens column (`eng['lens']='Engineer'`). -/
def setLens (lens : String) (r : Row) : Row :=
  { r with lens := lens }

/-- `run_all(df, regional_map, sims, bars, autotune, save_path)`
(src/engine.py lines 87-109).  `e1`/`e2` are the fresh unseeded generators
the two `simulate_once` calls construct internally (no generator is passed
down); the best-effort tuned-bars cache write is recorded in `writes`. -/
def run_all (nl : NumLib) (df : List Deal) (m : RegionalMap) (sims : ℕ)
    (bars? : Option Bars) (autotune : Bool) (save_path : String)
    (e1 e2 : Rng) : Option RunOut :=
  match simulate_once nl df m sims Lens.Engineer none e1,
      simulate_once nl df m sims Lens.Consumer none e2 with
  | some eng0, some con0 =>
    let eng := eng0.map (setLens "Engineer")
    let con := con0.map (setLens "Consumer")
    let both := eng ++ con
    let bars := bars?.getD defaultBars
    let s :=
      if autotune then
        let tuned := autotune_bars eng con defaultBars
        (Sums.mk (decide eng (some tuned)) (decide con (some tuned)) tuned (some defaultBars),
          [(save_path, tuned)])
      else
        (Sums.mk (decide eng (some bars)) (decide con (some bars)) bars none,
          ([] : List (String × Bars)))
    let grp := groupMedians both
    let opps := List.insertionSort oppLe (grp.map (mkOpp s.1.bars))
    some ⟨both, s.1, opps, s.2⟩
  | _, _ => none

/-- C1 amended: the opportunity table of every successful orchestrator run
is sorted by status ascending in the lexicographic string order — which
places CAUTION before GO — and, within equal status, by risk-adjusted ROI
descending. -/
theorem run_all_opps_sorted (nl : NumLib) (df : List Deal) (m : RegionalMap)
    (sims : ℕ) (bars? : Option Bars) (autotune : Bool) (save_path : String)
    (e1 e2 : Rng) :
    List.Sorted oppLe
      (((run_all nl df m sims bars? autotune save_path e1 e2).map RunOut.opps).getD []) := by
  unfold run_all
  cases h1 : simulate_once nl df m sims Lens.Engineer none e1 with
  | none => simp
  | some eng0 =>
    cases h2 : simulate_once nl df m sims Lens.Consumer none e2 with
    | none => simp
    | some con0 =>
      exact List.sorted_insertionSort oppLe _

/-- Concrete deal used by the C1 counterexample: a strongly profitable deal
in region "A". -/
def dealA : Deal := ⟨"a", "A", 100000, 0, 0, 0, 200000, 1, 0, 0, 0, 0⟩

/-- Concrete deal used by the C1 counterexample: a losing deal in region "B". -/
def dealB : Deal := ⟨"b", "B", 100000, 0, 0, 0, 50000, 1, 0, 0, 0, 0⟩

/-- Concrete two-ring table for the C1 counterexample. -/
def mapAB : RegionalMap := ⟨[("A", ⟨0, 0, 1, 0, 0⟩), ("B", ⟨0, 0, 1, 0, 0⟩)]⟩

/-- A junk opportunity row (out-of-range index default). -/
def oppJunk : Opp := ⟨"", "", 0, 0, 0, "", ""⟩

/-- C1 counterexample: a concrete run whose opportunity table starts with a
CAUTION row while a GO row appears later, refuting that every GO row
precedes every CAUTION row. -/
theorem run_all_opps_cex :
    ((((run_all nl0 [dealA, dealB] mapAB 1 (some ⟨0, 50, -100⟩) false
        "data/auto_tune.json" rng0 rng0).map RunOut.opps).getD []).getD 0 oppJunk).status =
      "CAUTION" ∧
    ((((run_all nl0 [dealA, dealB] mapAB 1 (some ⟨0, 50, -100⟩) false
        "data/auto_tune.json" rng0 rng0).map RunOut.opps).getD []).getD 2 oppJunk).status =
      "GO" := by
  with_unfolding_all decide

/-- C6: with autotuning disabled the orchestrator's summary carries the
caller-supplied bars (or the fixed defaults when none were supplied)
unchanged, and no tuned-bars cache write is attempted. -/
theorem run_all_no_autotune (nl : NumLib) (df : List Deal) (m : RegionalMap)
    (sims : ℕ) (bars? : Option Bars) (save_path : String) (e1 e2 : Rng) :
    ((run_all nl df m sims bars? false save_path e1 e2).map
        (fun o => (o.sums.bars, o.writes))).getD (bars?.getD defaultBars, []) =
      (bars?.getD defaultBars, ([] : List (String × Bars))) := by
  unfold run_all
  cases h1 : simulate_once nl df m sims Lens.Engineer none e1 with
  | none => rfl
  | some eng0 =>
    cases h2 : simulate_once nl df m sims Lens.Consumer none e2 with
    | none => rfl
    | some con0 => rfl

end RealtyEngine
